import Mathlib

/-!
# Verification of `starhop.py` against its specification

Shallow embedding of the StarHop APOD wallpaper tool.  Pure functions of the
source (`text_wrap`, `resolve_api_key`, `fetch_json`'s retry loop,
`pick_image_url`, `_mask`, `build_apod_url`, and the pure decision parts of
`main`) are translated into Lean definitions; effects (network, sleeping,
process exit) are made explicit as data (outcome-valued results, recorded
sleep lists, exit constructors).  Machine strings are Lean `String`
(`List Char` data); Python `str` helpers (`split`, `strip`, `upper`, `join`)
are re-implemented structurally over the character list so that all
definitions evaluate by kernel reduction.
-/

/-! ## Python string primitives -/

/-- Model of Python `str.strip()`: drop whitespace from both ends. -/
def pyStrip (s : String) : String :=
  ⟨((s.data.dropWhile Char.isWhitespace).reverse.dropWhile Char.isWhitespace).reverse⟩

/-- Model of Python `str.upper()` (ASCII case mapping). -/
def pyUpper (s : String) : String :=
  ⟨s.data.map Char.toUpper⟩

/-- Helper for `pySplit`: scan the characters, accumulating the current word
(reversed); whitespace ends a word, empty words are dropped. -/
def pySplitAux : List Char → List Char → List String
  | [], acc => if acc.isEmpty then [] else [⟨acc.reverse⟩]
  | c :: cs, acc =>
    if c.isWhitespace then
      if acc.isEmpty then pySplitAux cs [] else ⟨acc.reverse⟩ :: pySplitAux cs []
    else
      pySplitAux cs (c :: acc)

/-- Model of Python `str.split()` with no argument: split on runs of
whitespace, dropping empty pieces. -/
def pySplit (s : String) : List String :=
  pySplitAux s.data []

/-- Model of Python `sep.join(list)`. -/
def joinSep (sep : String) : List String → String
  | [] => ""
  | [x] => x
  | x :: y :: rest => x ++ sep ++ joinSep sep (y :: rest)

/-- Model of `' '.join(line)` for a line given as a list of words. -/
def joinWords (l : List String) : String := joinSep " " l

/-- The lines of a string: split the character data on `'\n'`. -/
def splitLinesAux : List Char → List Char → List String
  | [], acc => [⟨acc.reverse⟩]
  | c :: cs, acc =>
    if c = '\n' then ⟨acc.reverse⟩ :: splitLinesAux cs []
    else splitLinesAux cs (c :: acc)

/-- The list of lines of a string (what "every line of the returned string"
ranges over). -/
def strLines (s : String) : List String :=
  splitLinesAux s.data []

/-! ## `text_wrap` (starhop.py lines 66–94)

The measurement closure `_dims` (PIL `multiline_textbbox` under a fixed font)
is abstracted as a function `dims : String → Nat × Nat` giving (width,
height).  The mutable list-of-lines `lines` is carried as `init ++ [last]`:
`init` are the finished lines, `last` is `lines[-1]`, the only line the loop
mutates.  Python `IndexError` sites (`lines[-1][-1]` on an empty line) are
modelled by `Option`/an error constructor. -/

/-- Model of `_composed()`: `'\n'.join(' '.join(line) for line in lines if line)`. -/
def composed (lines : List (List String)) : String :=
  joinSep "\n" ((lines.filter fun l => !l.isEmpty).map joinWords)

/-- The final return of `text_wrap`:
`'\n'.join([' '.join(line) for line in lines])` (no emptiness filter). -/
def rendered (lines : List (List String)) : String :=
  joinSep "\n" (lines.map joinWords)

/-- The `while True` truncation loop: measure; break once the width fits or a
single word remains; otherwise pop the last word and re-append `'...'` to the
new last word.  The loop shortens `last` by one word per iteration, so fuel
`last.length` suffices; `none` models the `IndexError` raised by
`lines[-1].pop()` / `lines[-1][-1]` on an empty line (and the unreachable
fuel-exhaustion case). -/
def truncLoop (dims : String → Nat × Nat) (mw : Nat) (init : List (List String)) :
    Nat → List String → Option (List String)
  | 0, _ => none
  | fuel + 1, last =>
    if (dims (composed (init ++ [last]))).1 ≤ mw ∨ last.length = 1 then
      some last
    else
      match (last.dropLast).getLast? with
      | none => none
      | some lw => truncLoop dims mw init fuel (last.dropLast.dropLast ++ [lw ++ "..."])

/-- Outcome of one iteration of the `for word in words` loop. -/
inductive WrapOut where
  | cont (init : List (List String)) (last : List String)
  | stop (init : List (List String)) (last : List String)
  | err
deriving DecidableEq

/-- One iteration of the word loop: append `word` to the last line and
measure; on width overflow move the word to a new line and re-measure; on
height overflow drop that new line, append `'...'` to the previous block's
last line (IndexError if it is empty) and run the truncation loop, then stop
wrapping (`break`). -/
def wrapStep (dims : String → Nat × Nat) (mw mh : Nat)
    (init : List (List String)) (last : List String) (word : String) : WrapOut :=
  if (dims (composed (init ++ [last ++ [word]]))).1 > mw then
    if (dims (composed ((init ++ [last]) ++ [[word]]))).2 > mh then
      match last.getLast? with
      | none => WrapOut.err
      | some lw =>
        match truncLoop dims mw init last.length (last.dropLast ++ [lw ++ "..."]) with
        | none => WrapOut.err
        | some lastF => WrapOut.stop init lastF
    else
      WrapOut.cont (init ++ [last]) [word]
  else
    WrapOut.cont init (last ++ [word])

/-- The word loop of `text_wrap`.  Returns the final list of lines together
with a flag recording whether the height-capacity `break` was taken; `none`
models an uncaught `IndexError`. -/
def wrapLoop (dims : String → Nat × Nat) (mw mh : Nat) :
    List String → List (List String) → List String →
    Option (List (List String) × Bool)
  | [], init, last => some (init ++ [last], false)
  | word :: ws, init, last =>
    match wrapStep dims mw mh init last word with
    | WrapOut.cont i l => wrapLoop dims mw mh ws i l
    | WrapOut.stop i l => some (i ++ [l], true)
    | WrapOut.err => none

/-- Instrumented `text_wrap`: the final `lines` list and the truncation flag.
Initially `lines = [[]]`, i.e. `init = []`, `last = []`. -/
def text_wrap_run (text : String) (dims : String → Nat × Nat) (mw mh : Nat) :
    Option (List (List String) × Bool) :=
  wrapLoop dims mw mh (pySplit text) [] []

/-- Model of `text_wrap(text, font, writing, max_width, max_height)` with the
font/drawing measurement abstracted as `dims`.  `none` models the
`IndexError` crash. -/
def text_wrap (text : String) (dims : String → Nat × Nat) (mw mh : Nat) :
    Option String :=
  (text_wrap_run text dims mw mh).map fun r => rendered r.1

/-! ## Credential resolution (starhop.py lines 36–60)

`resolve_api_key` reads the optional CLI flag, the `NASA_APOD_KEY` environment
variable (modelled as a `String`, `""` when unset, matching
`os.environ.get(..., "")`), and the installer key file (modelled as
`Option String`, `none` for `FileNotFoundError`).  `sys.exit(msg)` — which
terminates the process with a non-zero status after printing `msg` — is the
`exit` constructor. -/

/-- The guidance message of the final `sys.exit` in `resolve_api_key`. -/
def GUIDANCE_MSG : String :=
  "NASA API key is required. Re-run the installer to save your key, or pass --api-key/ NASA_APOD_KEY."

/-- Result of `resolve_api_key`: a key, or process exit with a message. -/
inductive KeyResult where
  | key (k : String)
  | exit (msg : String)
deriving DecidableEq

/-- Model of `resolve_api_key(cli_value)`: CLI flag, then environment, then key file,
each stripped; first non-empty wins, otherwise fail fast with guidance. -/
def resolve_api_key (cli : Option String) (env : String) (file : Option String) :
    KeyResult :=
  let k1 := pyStrip (cli.getD "")
  if k1 ≠ "" then KeyResult.key k1
  else
    let k2 := pyStrip env
    if k2 ≠ "" then KeyResult.key k2
    else
      match file with
      | some content =>
        let k3 := pyStrip content
        if k3 ≠ "" then KeyResult.key k3 else KeyResult.exit GUIDANCE_MSG
      | none => KeyResult.exit GUIDANCE_MSG

/-! ## URL building (starhop.py lines 33, 155–162) -/

def API_BASE : String := "https://api.nasa.gov/planetary/apod"

/-- One hex digit (upper case), as used by percent-encoding. -/
def hexDigit (n : Nat) : Char :=
  if n < 10 then Char.ofNat ('0'.toNat + n) else Char.ofNat ('A'.toNat + (n - 10))

/-- Model of `urllib.parse.quote_plus` on one character (single-byte model: characters
are percent-encoded from their code point; multi-byte UTF-8 expansion of
non-ASCII characters is not modelled, API keys are ASCII). -/
def quotePlusChar (c : Char) : List Char :=
  if c.isAlphanum ∨ c = '_' ∨ c = '.' ∨ c = '-' ∨ c = '~' then [c]
  else if c = ' ' then ['+']
  else ['%', hexDigit (c.toNat / 16 % 16), hexDigit (c.toNat % 16)]

/-- Model of `urllib.parse.quote_plus` over a string. -/
def quote_plus (s : String) : String :=
  ⟨(s.data.map quotePlusChar).flatten⟩

/-- Model of `build_apod_url(api_key)`: `urlencode({"api_key": key, "thumbs": "true"})`
appended to `API_BASE` after `?`. -/
def build_apod_url (api_key : String) : String :=
  API_BASE ++ "?" ++ "api_key=" ++ quote_plus api_key ++ "&thumbs=true"

/-! ## `fetch_json` retry loop (starhop.py lines 165–188)

The network is a function from the attempt index to that attempt's outcome
(successful parsed JSON of type `α`, an `urllib.error.HTTPError` with a
status code, or any other exception).  `time.sleep` durations are recorded in
order; the backoff base (Python float `1.5`, whose small powers are exact) is
a rational. -/

/-- Outcome of a single GET attempt. -/
inductive Attempt (α : Type) where
  | ok (v : α)
  | httpErr (code : Nat)
  | exc
deriving DecidableEq

/-- How `fetch_json` returns: a value, a raised `HTTPError`, a re-raised
non-HTTP exception, or the `assert False` after the loop (reachable only when
`retries = 0`). -/
inductive FetchOut (α : Type) where
  | ok (v : α)
  | raiseHttp (code : Nat)
  | raiseExc
  | unreachableAssert
deriving DecidableEq

/-- The transient status codes retried with backoff. -/
def transientCodes : List Nat := [429, 500, 502, 503, 504]

/-- The `for attempt in range(retries)` loop; `remaining` counts the
iterations left, `sleeps` the `time.sleep` durations so far. -/
def fetchLoop {α : Type} (net : Nat → Attempt α) (retries : Nat) (backoff : ℚ) :
    Nat → Nat → List ℚ → FetchOut α × List ℚ
  | 0, _, sleeps => (FetchOut.unreachableAssert, sleeps)
  | remaining + 1, attempt, sleeps =>
    match net attempt with
    | Attempt.ok v => (FetchOut.ok v, sleeps)
    | Attempt.httpErr c =>
      if c ∈ transientCodes ∧ attempt < retries - 1 then
        fetchLoop net retries backoff remaining (attempt + 1) (sleeps ++ [backoff ^ attempt])
      else (FetchOut.raiseHttp c, sleeps)
    | Attempt.exc =>
      if attempt < retries - 1 then
        fetchLoop net retries backoff remaining (attempt + 1) (sleeps ++ [backoff ^ attempt])
      else (FetchOut.raiseExc, sleeps)

/-- Model of `fetch_json(url, retries, backoff)`: the result together with the list of
backoff sleeps performed.  The source's defaults are `retries = 3`,
`backoff = 1.5`. -/
def fetch_json {α : Type} (net : Nat → Attempt α) (retries : Nat) (backoff : ℚ) :
    FetchOut α × List ℚ :=
  fetchLoop net retries backoff retries 0 []

/-! ## APOD response and image selection (starhop.py lines 191–196, 227–235) -/

/-- The fields of the APOD JSON mapping that `main` reads; `none` models an
absent key (`dict.get` returning `None`). -/
structure Apod where
  media_type : Option String
  hdurl : Option String
  url : Option String
  thumbnail_url : Option String
  title : Option String
  explanation : Option String
  date : Option String
deriving DecidableEq

/-- Python `a or b` on optional strings: `a` unless it is `None` or the empty
string (falsy), else `b`. -/
def pyOr (a b : Option String) : Option String :=
  match a with
  | some s => if s ≠ "" then some s else b
  | none => b

/-- Model of `pick_image_url(apod)`: prefer `hdurl` for images, else the video
thumbnail, falling back to `url` in both cases. -/
def pick_image_url (apod : Apod) : Option String :=
  if apod.media_type = some "image" then pyOr apod.hdurl apod.url
  else pyOr apod.thumbnail_url apod.url

/-! ## The orchestrator's pure decision stages (starhop.py lines 200–285) -/

/-- The distinct `sys.exit` message for the rejected sentinel key. -/
def DEMO_MSG : String :=
  "DEMO_KEY is not allowed. Please supply your personal NASA API key."

/-- What `main` has decided before any network request: terminate, or
perform the GET on the built URL. -/
inductive PreFetch where
  | exit (msg : String)
  | fetch (url : String)
deriving DecidableEq

/-- Stage of `main` up to the network call: resolve the key, reject the sentinel
`DEMO_KEY` (case-insensitively), then build the request URL. -/
def main_prefetch (cli : Option String) (env : String) (file : Option String) :
    PreFetch :=
  match resolve_api_key cli env file with
  | KeyResult.exit m => PreFetch.exit m
  | KeyResult.key k =>
    if pyUpper k = "DEMO_KEY" then PreFetch.exit DEMO_MSG
    else PreFetch.fetch (build_apod_url k)

/-- The `_mask` closure of `main`: show the first and last 4 characters of
keys of length ≥ 8 with the middle elided, otherwise `"****"`. -/
def mask (k : String) : String :=
  if k.length ≥ 8 then
    (⟨k.data.take 4⟩ : String) ++ "…" ++ (⟨k.data.drop (k.data.length - 4)⟩ : String)
  else "****"

/-- The `Fetching: ...` log line printed by `main`, with the key masked. -/
def log_line (api_key : String) : String :=
  "Fetching: " ++ API_BASE ++ "?api_key=" ++ mask api_key ++ "&thumbs=true"

/-- Python `repr` of an optional string (`None` or a quoted string; quote
escaping inside the string is not modelled). -/
def pyReprOpt : Option String → String
  | none => "None"
  | some s => "'" ++ s ++ "'"

/-- Python `str` of an optional string under an f-string. -/
def pyStrOpt : Option String → String
  | none => "None"
  | some s => s

/-- The default title when the response lacks a `title` key. -/
def APOD_TITLE_DEFAULT : String := "Astronomy Picture of the Day"

/-- The `SystemExit` message when no image URL is available. -/
def no_image_msg (media_type date : Option String) : String :=
  "No downloadable image URL found for media_type=" ++ pyReprOpt media_type ++
    " on " ++ pyStrOpt date ++ "."

/-- What `main` decides right after the fetch: either the fatal
missing-image exit, or proceed to download/caption with the chosen URL,
title (defaulted), explanation (defaulted) and response date. -/
inductive PostFetch where
  | exit (msg : String)
  | proceed (image_url title explanation : String) (date : Option String)
deriving DecidableEq

/-- Stage of `main` from the parsed response to the download decision (lines 227–235):
extract fields with defaults; `if not image_url:` treats both `None` and the
empty string as fatal. -/
def main_postfetch (apod : Apod) : PostFetch :=
  let title := apod.title.getD APOD_TITLE_DEFAULT
  let explanation := apod.explanation.getD ""
  match pick_image_url apod with
  | none => PostFetch.exit (no_image_msg apod.media_type apod.date)
  | some u =>
    if u = "" then PostFetch.exit (no_image_msg apod.media_type apod.date)
    else PostFetch.proceed u title explanation apod.date

set_option linter.unusedVariables false in
/-- The output path of the captioned image (lines 281–285):
`os.path.expanduser(f"~/Pictures/apod/{today}.png")` where `today` is
`str(datetime.date.today())`, the run day's ISO date.  The response mapping
is in scope in `main` but unused by this computation; it is taken as an
argument to state that fact. -/
def main_out_path (apod : Apod) (home today : String) : String :=
  home ++ "/Pictures/apod/" ++ today ++ ".png"

/-! ## General string helpers -/

/-- A string decomposes with suffix `t` iff `t.data` is a suffix of its
character data (the computable check used in counterexamples). -/
theorem ends_with_iff_suffix (s t : String) :
    (∃ p : String, s = p ++ t) ↔ t.data.isSuffixOf s.data = true := by
  rw [List.isSuffixOf_iff_suffix]
  constructor
  · rintro ⟨p, rfl⟩
    exact ⟨p.data, (String.data_append p t).symm⟩
  · rintro ⟨u, hu⟩
    refine ⟨⟨u⟩, String.ext ?_⟩
    rw [String.data_append]
    exact hu.symm

theorem joinSep_cons_cons (sep a b : String) (t : List String) :
    joinSep sep (a :: b :: t) = a ++ sep ++ joinSep sep (b :: t) := rfl

/-- A separator-join of a list with last element `x` ends with `x`. -/
theorem joinSep_concat (sep : String) :
    ∀ (xs : List String) (x : String), ∃ q : String, joinSep sep (xs ++ [x]) = q ++ x
  | [], x => ⟨"", (String.empty_append x).symm⟩
  | [y], x => ⟨y ++ sep, rfl⟩
  | y :: z :: rest, x => by
    obtain ⟨q, hq⟩ := joinSep_concat sep (z :: rest) x
    refine ⟨y ++ sep ++ q, ?_⟩
    have h1 : (y :: z :: rest) ++ [x] = y :: z :: (rest ++ [x]) := rfl
    have h2 : z :: (rest ++ [x]) = (z :: rest) ++ [x] := rfl
    rw [h1, joinSep_cons_cons, h2, hq, ← String.append_assoc]

/-- Every member of a list is at most as long as its separator-join. -/
theorem length_le_joinSep (sep : String) :
    ∀ (ls : List String) (l : String), l ∈ ls → l.length ≤ (joinSep sep ls).length
  | [], l, h => absurd h (List.not_mem_nil l)
  | [y], l, h => by
    rw [List.mem_singleton] at h
    subst h
    exact Nat.le_refl _
  | y :: z :: rest, l, h => by
    rw [joinSep_cons_cons, String.length_append, String.length_append]
    rcases List.mem_cons.mp h with h | h
    · subst h
      exact Nat.le_add_right_of_le (Nat.le_add_right _ _)
    · calc l.length ≤ (joinSep sep (z :: rest)).length := length_le_joinSep sep (z :: rest) l h
        _ ≤ _ := Nat.le_add_left _ _

/-! ## Theorems: HTTP JSON fetcher (C4) -/

theorem fetchLoop_step_ok {α : Type} (net : Nat → Attempt α) (r : Nat) (b : ℚ)
    (rem attempt : Nat) (s : List ℚ) (v : α) (h : net attempt = Attempt.ok v) :
    fetchLoop net r b (rem + 1) attempt s = (FetchOut.ok v, s) := by
  simp only [fetchLoop, h]

theorem fetchLoop_step_transient {α : Type} (net : Nat → Attempt α) (r : Nat) (b : ℚ)
    (rem attempt : Nat) (s : List ℚ) (c : Nat) (h : net attempt = Attempt.httpErr c)
    (hc : c ∈ transientCodes) (hlt : attempt < r - 1) :
    fetchLoop net r b (rem + 1) attempt s =
      fetchLoop net r b rem (attempt + 1) (s ++ [b ^ attempt]) := by
  simp only [fetchLoop, h]
  exact if_pos ⟨hc, hlt⟩

theorem fetchLoop_step_raise {α : Type} (net : Nat → Attempt α) (r : Nat) (b : ℚ)
    (rem attempt : Nat) (s : List ℚ) (c : Nat) (h : net attempt = Attempt.httpErr c)
    (hstop : ¬(c ∈ transientCodes ∧ attempt < r - 1)) :
    fetchLoop net r b (rem + 1) attempt s = (FetchOut.raiseHttp c, s) := by
  simp only [fetchLoop, h]
  exact if_neg hstop

/-- C4 — with the default attempt count 3: two transient 503 failures then a
success return the parsed value after exactly the two backoff sleeps
`base^0` and `base^1`; a 404 propagates on the first attempt with no retry
and no sleep. -/
theorem fetch_json_retry_policy {α : Type} (net net2 : Nat → Attempt α) (v : α) (b : ℚ)
    (h0 : net 0 = Attempt.httpErr 503) (h1 : net 1 = Attempt.httpErr 503)
    (h2 : net 2 = Attempt.ok v) (h404 : net2 0 = Attempt.httpErr 404) :
    fetch_json net 3 b = (FetchOut.ok v, [b ^ 0, b ^ 1]) ∧
    fetch_json net2 3 b = (FetchOut.raiseHttp 404, []) := by
  constructor
  · show fetchLoop net 3 b 3 0 [] = _
    rw [fetchLoop_step_transient net 3 b 2 0 [] 503 h0 (by decide) (by decide),
      fetchLoop_step_transient net 3 b 1 1 _ 503 h1 (by decide) (by decide),
      fetchLoop_step_ok net 3 b 0 2 _ v h2]
    rfl
  · show fetchLoop net2 3 b 3 0 [] = _
    rw [fetchLoop_step_raise net2 3 b 2 0 [] 404 h404 (by decide)]

/-- Witness for C4 at a concrete network trace. -/
theorem fetch_json_retry_policy_witness :
    fetch_json (fun n => if n < 2 then Attempt.httpErr 503 else Attempt.ok 7) 3 (3/2 : ℚ) =
      (FetchOut.ok 7, [(3/2 : ℚ) ^ 0, (3/2 : ℚ) ^ 1]) ∧
    fetch_json (fun _ => (Attempt.httpErr 404 : Attempt Nat)) 3 (3/2 : ℚ) =
      (FetchOut.raiseHttp 404, []) :=
  fetch_json_retry_policy (fun n => if n < 2 then Attempt.httpErr 503 else Attempt.ok 7)
    (fun _ => Attempt.httpErr 404) 7 (3/2 : ℚ) rfl rfl rfl rfl

/-! ## Theorems: credential resolution (C5) -/

/-- C5 (counterexample) — the claim as stated fails: a non-empty,
whitespace-only CLI value does not win; the code strips it to `""` and falls
through to the environment. -/
theorem resolve_api_key_claim_counterexample :
    (" " : String) ≠ "" ∧
    resolve_api_key (some " ") "realkey" none = KeyResult.key "realkey" ∧
    resolve_api_key (some " ") "realkey" none ≠ KeyResult.key " " := by
  refine ⟨by decide, by decide, by decide⟩

/-- C5 (amended) — precedence holds for values non-empty after stripping,
and the returned key is the stripped value: stripped CLI wins when non-empty,
else stripped environment, else stripped key-file content; when all strip to
empty (or the file is absent), the process exits with the guidance message. -/
theorem resolve_api_key_precedence (cli : Option String) (env : String) (file : Option String) :
    (pyStrip (cli.getD "") ≠ "" →
      resolve_api_key cli env file = KeyResult.key (pyStrip (cli.getD ""))) ∧
    (pyStrip (cli.getD "") = "" → pyStrip env ≠ "" →
      resolve_api_key cli env file = KeyResult.key (pyStrip env)) ∧
    (∀ c, pyStrip (cli.getD "") = "" → pyStrip env = "" → file = some c → pyStrip c ≠ "" →
      resolve_api_key cli env file = KeyResult.key (pyStrip c)) ∧
    (pyStrip (cli.getD "") = "" → pyStrip env = "" →
      (file = none ∨ ∃ c, file = some c ∧ pyStrip c = "") →
      resolve_api_key cli env file = KeyResult.exit GUIDANCE_MSG) := by
  refine ⟨fun h1 => ?_, fun h1 h2 => ?_, fun c h1 h2 hf h3 => ?_, fun h1 h2 hf => ?_⟩
  · simp [resolve_api_key, h1]
  · simp [resolve_api_key, h1, h2]
  · subst hf
    simp [resolve_api_key, h1, h2, h3]
  · rcases hf with hf | ⟨c, hf, h3⟩
    · subst hf
      simp [resolve_api_key, h1, h2]
    · subst hf
      simp [resolve_api_key, h1, h2, h3]

/-- Witness for C5 (amended) at concrete inputs: a CLI value that strips to
`"abc"` beats a non-empty environment. -/
theorem resolve_api_key_precedence_witness :
    pyStrip ((some " abc " : Option String).getD "") ≠ "" ∧
    resolve_api_key (some " abc ") "zz" none = KeyResult.key "abc" :=
  ⟨by decide, by
    have h := (resolve_api_key_precedence (some " abc ") "zz" none).1 (by decide)
    simpa using h⟩

/-! ## Theorems: sentinel key rejection (C6) -/

/-- C6 — whatever source the key was resolved from, a key equal to
`DEMO_KEY` up to letter case makes `main` exit with the distinct sentinel
message, and it never reaches the fetch stage (no network request). -/
theorem demo_key_rejected (cli : Option String) (env : String) (file : Option String)
    (k : String) (hres : resolve_api_key cli env file = KeyResult.key k)
    (hdemo : pyUpper k = "DEMO_KEY") :
    main_prefetch cli env file = PreFetch.exit DEMO_MSG ∧
    (∀ u, main_prefetch cli env file ≠ PreFetch.fetch u) ∧
    DEMO_MSG ≠ GUIDANCE_MSG := by
  refine ⟨?_, ?_, by decide⟩
  · simp [main_prefetch, hres, hdemo]
  · intro u
    simp [main_prefetch, hres, hdemo]

/-- Witness for C6: the lower-case sentinel supplied via the CLI flag. -/
theorem demo_key_rejected_witness :
    resolve_api_key (some "demo_key") "" none = KeyResult.key "demo_key" ∧
    pyUpper "demo_key" = "DEMO_KEY" ∧
    main_prefetch (some "demo_key") "" none = PreFetch.exit DEMO_MSG :=
  ⟨by decide, by decide,
    (demo_key_rejected (some "demo_key") "" none "demo_key" (by decide) (by decide)).1⟩

/-! ## Theorems: image selection (C7) -/

/-- C7 (counterexample) — the claim as stated fails: for `media_type =
"image"` with `hdurl` present but equal to the empty string, the code's
Python-truthiness `or` skips `hdurl` and returns `url`. -/
theorem pick_image_url_claim_counterexample :
    (⟨some "image", some "", some "U", none, none, none, none⟩ : Apod).hdurl = some "" ∧
    pick_image_url ⟨some "image", some "", some "U", none, none, none, none⟩ = some "U" ∧
    pick_image_url ⟨some "image", some "", some "U", none, none, none, none⟩ ≠ some "" := by
  refine ⟨rfl, by decide, by decide⟩

/-- C7 (amended) — image selection is a pure function of the response: for
`media_type = "image"` a present *non-empty* `hdurl` is returned, and an
absent or empty `hdurl` falls back to `url` (whatever it is); for any other
media type the same holds with `thumbnail_url` in place of `hdurl`; and when
the selector returns `none` the orchestrator exits fatally with the message
naming the media type and date. -/
theorem pick_image_url_selection (a : Apod) :
    (a.media_type = some "image" → ∀ h, a.hdurl = some h → h ≠ "" →
      pick_image_url a = some h) ∧
    (a.media_type = some "image" → (a.hdurl = none ∨ a.hdurl = some "") →
      pick_image_url a = a.url) ∧
    (a.media_type ≠ some "image" → ∀ t, a.thumbnail_url = some t → t ≠ "" →
      pick_image_url a = some t) ∧
    (a.media_type ≠ some "image" → (a.thumbnail_url = none ∨ a.thumbnail_url = some "") →
      pick_image_url a = a.url) ∧
    (pick_image_url a = none →
      main_postfetch a = PostFetch.exit (no_image_msg a.media_type a.date)) := by
  refine ⟨fun hm h hh hne => ?_, fun hm hh => ?_, fun hm t ht htne => ?_, fun hm ht => ?_,
    fun hnone => ?_⟩
  · simp [pick_image_url, hm, pyOr, hh, hne]
  · rcases hh with hh | hh <;> simp [pick_image_url, hm, pyOr, hh]
  · simp [pick_image_url, hm, pyOr, ht, htne]
  · rcases ht with ht | ht <;> simp [pick_image_url, hm, pyOr, ht]
  · simp [main_postfetch, hnone]

/-- Witness for C7 (amended): an image response with a non-empty `hdurl`. -/
theorem pick_image_url_selection_witness :
    pick_image_url ⟨some "image", some "H", some "U", none, none, none, none⟩ = some "H" :=
  (pick_image_url_selection ⟨some "image", some "H", some "U", none, none, none, none⟩).1
    rfl "H" rfl (by decide)

/-! ## Theorems: output path (C8) -/

/-- C8 (counterexample) — the claim as stated fails: the saved path is built
from the *run day's* date, not the response's `date` field; a response dated
2024-01-01 processed on 2025-06-05 is saved at a path that does not end in
`apod/2024-01-01.png`. -/
theorem out_path_claim_counterexample :
    (⟨some "image", some "X", none, none, some "T", some "E", some "2024-01-01"⟩ : Apod).date =
      some "2024-01-01" ∧
    main_out_path ⟨some "image", some "X", none, none, some "T", some "E", some "2024-01-01"⟩
      "/home/user" "2025-06-05" = "/home/user/Pictures/apod/2025-06-05.png" ∧
    ¬ ∃ p : String,
      main_out_path ⟨some "image", some "X", none, none, some "T", some "E", some "2024-01-01"⟩
        "/home/user" "2025-06-05" = p ++ "apod/2024-01-01.png" := by
  refine ⟨rfl, by decide, ?_⟩
  rw [ends_with_iff_suffix]
  decide

/-- C8 (amended) — the output path always ends in `apod/<today>.png` where
`today` is the current date at run time, and it is independent of the
response mapping (in particular of its `date` field). -/
theorem out_path_uses_run_date (apod : Apod) (home today : String) :
    (∃ p : String, main_out_path apod home today = p ++ ("apod/" ++ today ++ ".png")) ∧
    (∀ apod2 : Apod, main_out_path apod2 home today = main_out_path apod home today) := by
  constructor
  · refine ⟨home ++ "/Pictures/", ?_⟩
    show home ++ "/Pictures/apod/" ++ today ++ ".png" = _
    rw [String.append_assoc, String.append_assoc, String.append_assoc]
    rfl
  · intro apod2
    rfl

/-! ## Theorems: credential masking (C9) -/

/-- C9 — every character of the logged `Fetching:` line is either a
character of the fixed URL/mask template or one of the first 4 / last 4
characters of the key; and a key shorter than 8 characters is fully masked
(the mask is the constant `"****"`, revealing nothing). -/
theorem mask_reveals_at_most_ends (k : String) :
    (∀ c ∈ (log_line k).data,
      c ∈ ("Fetching: " ++ API_BASE ++ "?api_key=" ++ "&thumbs=true" ++ "…" ++ "****").data ∨
      c ∈ k.data.take 4 ∨ c ∈ k.data.drop (k.data.length - 4)) ∧
    (k.length < 8 → mask k = "****") := by
  have htempl : ∀ piece : String,
      (∀ x ∈ piece.data,
        x ∈ ("Fetching: " ++ API_BASE ++ "?api_key=" ++ "&thumbs=true" ++ "…" ++ "****").data) →
      ∀ c ∈ piece.data,
        c ∈ ("Fetching: " ++ API_BASE ++ "?api_key=" ++ "&thumbs=true" ++ "…" ++ "****").data ∨
        c ∈ k.data.take 4 ∨ c ∈ k.data.drop (k.data.length - 4) :=
    fun _ hs c hc => Or.inl (hs c hc)
  constructor
  · intro c hc
    simp only [log_line, String.data_append, List.mem_append] at hc
    rcases hc with (((hc | hc) | hc) | hc) | hc
    · exact htempl "Fetching: " (by decide) c hc
    · exact htempl API_BASE (by decide) c hc
    · exact htempl "?api_key=" (by decide) c hc
    · -- the mask itself
      by_cases hlen : k.length ≥ 8
      · rw [mask, if_pos hlen] at hc
        simp only [String.data_append, List.mem_append] at hc
        rcases hc with (hc | hc) | hc
        · right; left; exact hc
        · exact htempl "…" (by decide) c hc
        · right; right; exact hc
      · rw [mask, if_neg hlen] at hc
        exact htempl "****" (by decide) c hc
    · exact htempl "&thumbs=true" (by decide) c hc
  · intro hlt
    rw [mask, if_neg (Nat.not_le.mpr hlt)]

/-- Witness for C9: a short key is fully masked. -/
theorem mask_reveals_at_most_ends_witness : mask "abc" = "****" :=
  (mask_reveals_at_most_ends "abc").2 (by decide)

/-! ## Theorems: missing title/explanation defaults (C10) -/

/-- C10 — each default is independent: a response without `title` gets the
fixed default title (the explanation being whatever its own defaulting
gives), a response without `explanation` gets the empty string wrapped (the
title being whatever its own defaulting gives), and neither absence is
fatal: the only fatal exit at this stage is the missing-image-URL message. -/
theorem postfetch_defaults (a : Apod) :
    (∀ u, pick_image_url a = some u → u ≠ "" → a.title = none →
      main_postfetch a =
        PostFetch.proceed u APOD_TITLE_DEFAULT (a.explanation.getD "") a.date) ∧
    (∀ u, pick_image_url a = some u → u ≠ "" → a.explanation = none →
      main_postfetch a =
        PostFetch.proceed u (a.title.getD APOD_TITLE_DEFAULT) "" a.date) ∧
    (∀ m, main_postfetch a = PostFetch.exit m → m = no_image_msg a.media_type a.date) := by
  refine ⟨?_, ?_, ?_⟩
  · intro u hu hne ht
    simp [main_postfetch, hu, hne, ht]
  · intro u hu hne he
    simp [main_postfetch, hu, hne, he]
  · intro m hm
    unfold main_postfetch at hm
    rcases hpick : pick_image_url a with _ | u <;> rw [hpick] at hm
    · simpa using hm.symm
    · by_cases hu : u = "" <;> simp [hu] at hm
      exact hm.symm

/-- Witness for C10: one response lacking only `title` (its `explanation`
`"E1"` is kept), and one lacking only `explanation` (its title `"T1"` is
kept). -/
theorem postfetch_defaults_witness :
    main_postfetch ⟨some "video", none, none, some "TH", none, some "E1", some "2024-01-01"⟩ =
      PostFetch.proceed "TH" APOD_TITLE_DEFAULT "E1" (some "2024-01-01") ∧
    main_postfetch ⟨some "video", none, none, some "TH", some "T1", none, some "2024-01-02"⟩ =
      PostFetch.proceed "TH" "T1" "" (some "2024-01-02") :=
  ⟨(postfetch_defaults
      ⟨some "video", none, none, some "TH", none, some "E1", some "2024-01-01"⟩).1
    "TH" (by decide) (by decide) rfl,
  (postfetch_defaults
      ⟨some "video", none, none, some "TH", some "T1", none, some "2024-01-02"⟩).2.1
    "TH" (by decide) (by decide) rfl⟩

/-! ## Invariants of the wrapping loop

`certLine pre l` records what the loop guarantees about a line `l` whose
preceding block is `pre`: it is the (possibly empty) initial line, or holds a
single word (which may silently overflow, as the source's truncation loop
bottoms out at one word), or the composed text up to and including `l` was
measured to fit the width at the moment `l` was completed. -/

def certLine (dims : String → Nat × Nat) (mw : Nat)
    (pre : List (List String)) (l : List String) : Prop :=
  l = [] ∨ l.length = 1 ∨ (dims (composed (pre ++ [l]))).1 ≤ mw

/-- All positions of the line list are certified against their prefixes. -/
def certAll (dims : String → Nat × Nat) (mw : Nat) (L : List (List String)) : Prop :=
  ∀ i (h : i < L.length), certLine dims mw (L.take i) (L.get ⟨i, h⟩)

/-- A line whose last word carries the truncation marker. -/
def markedLine (l : List String) : Prop :=
  ∃ l' r, l = l' ++ [r ++ "..."]

theorem certAll_nil (dims : String → Nat × Nat) (mw : Nat) : certAll dims mw [] :=
  fun i h => absurd h (by simp)

theorem certAll_concat {dims : String → Nat × Nat} {mw : Nat}
    {L : List (List String)} {l : List String}
    (hL : certAll dims mw L) (hl : certLine dims mw L l) :
    certAll dims mw (L ++ [l]) := by
  intro i h
  rcases Nat.lt_or_ge i L.length with hi | hi
  · have ht : (L ++ [l]).take i = L.take i :=
      List.take_append_of_le_length (Nat.le_of_lt hi)
    have hg : (L ++ [l]).get ⟨i, h⟩ = L.get ⟨i, hi⟩ := by
      simp [List.get_eq_getElem, List.getElem_append_left hi]
    rw [ht, hg]
    exact hL i hi
  · have hlen : i = L.length := by
      have : i < L.length + 1 := by simpa using h
      omega
    subst hlen
    have ht : (L ++ [l]).take L.length = L := List.take_left L [l]
    have hg : (L ++ [l]).get ⟨L.length, h⟩ = l := by
      simp [List.get_eq_getElem]
    rw [ht, hg]
    exact hl

theorem composed_singleton : ∀ (l : List String), l ≠ [] → composed [l] = joinWords l
  | [], h => absurd rfl h
  | _ :: _, _ => rfl

/-! Facts about the truncation loop. -/

theorem truncLoop_cert (dims : String → Nat × Nat) (mw : Nat) (init : List (List String)) :
    ∀ (fuel : Nat) (l l' : List String), truncLoop dims mw init fuel l = some l' →
      (dims (composed (init ++ [l']))).1 ≤ mw ∨ l'.length = 1 := by
  intro fuel
  induction fuel with
  | zero => intro l l' h; simp [truncLoop] at h
  | succ n ih =>
    intro l l' h
    rw [truncLoop] at h
    split at h
    · cases h
      assumption
    · split at h
      · cases h
      · exact ih _ _ h

theorem truncLoop_marked (dims : String → Nat × Nat) (mw : Nat) (init : List (List String)) :
    ∀ (fuel : Nat) (l l' : List String), markedLine l →
      truncLoop dims mw init fuel l = some l' → markedLine l' := by
  intro fuel
  induction fuel with
  | zero => intro l l' _ h; simp [truncLoop] at h
  | succ n ih =>
    intro l l' hm h
    rw [truncLoop] at h
    split at h
    · cases h
      exact hm
    · split at h
      · cases h
      · exact ih _ _ ⟨l.dropLast.dropLast, _, rfl⟩ h

theorem truncLoop_ne_none (dims : String → Nat × Nat) (mw : Nat) (init : List (List String)) :
    ∀ (fuel : Nat) (l : List String), l ≠ [] → l.length ≤ fuel →
      truncLoop dims mw init fuel l ≠ none := by
  intro fuel
  induction fuel with
  | zero =>
    intro l hne hlen
    exact absurd (List.length_eq_zero.mp (Nat.le_zero.mp hlen)) hne
  | succ n ih =>
    intro l hne hlen
    rw [truncLoop]
    split
    · simp
    · rename_i hcond
      have hlen1 : l.length ≠ 1 := fun h => hcond (Or.inr h)
      have hge2 : 2 ≤ l.length := by
        rcases l with _ | ⟨a, t⟩
        · exact absurd rfl hne
        · rcases t with _ | _
          · exact absurd rfl hlen1
          · simp only [List.length_cons]
            omega
      have hdne : l.dropLast ≠ [] := by
        intro hnil
        have := List.length_dropLast l
        rw [hnil] at this
        simp at this
        omega
      split
      · rename_i hnone
        exact absurd (List.getLast?_eq_none_iff.mp hnone) hdne
      · rename_i lw hlw
        apply ih
        · simp
        · have h1 : l.dropLast.length = l.length - 1 := List.length_dropLast l
          have h2 : l.dropLast.dropLast.length = l.dropLast.length - 1 :=
            List.length_dropLast _
          simp only [List.length_append, List.length_cons, List.length_nil]
          omega

/-! Facts about one step of the word loop. -/

theorem wrapStep_cont_cert {dims : String → Nat × Nat} {mw mh : Nat}
    {init : List (List String)} {last : List String} {word : String}
    {i : List (List String)} {l : List String}
    (h : wrapStep dims mw mh init last word = WrapOut.cont i l)
    (hall : certAll dims mw init) (hlast : certLine dims mw init last) :
    certAll dims mw i ∧ certLine dims mw i l := by
  unfold wrapStep at h
  split at h
  · split at h
    · split at h
      · cases h
      · split at h
        · cases h
        · cases h
    · cases h
      exact ⟨certAll_concat hall hlast, Or.inr (Or.inl rfl)⟩
  · cases h
    rename_i hfit
    exact ⟨hall, Or.inr (Or.inr (Nat.not_lt.mp hfit))⟩

theorem wrapStep_cont_ne_nil {dims : String → Nat × Nat} {mw mh : Nat}
    {init : List (List String)} {last : List String} {word : String}
    {i : List (List String)} {l : List String}
    (h : wrapStep dims mw mh init last word = WrapOut.cont i l) : l ≠ [] := by
  unfold wrapStep at h
  split at h
  · split at h
    · split at h
      · cases h
      · split at h
        · cases h
        · cases h
    · cases h
      simp
  · cases h
    simp

theorem wrapStep_stop_cert {dims : String → Nat × Nat} {mw mh : Nat}
    {init : List (List String)} {last : List String} {word : String}
    {i : List (List String)} {l : List String}
    (h : wrapStep dims mw mh init last word = WrapOut.stop i l)
    (hall : certAll dims mw init) :
    i = init ∧ certAll dims mw i ∧ certLine dims mw i l ∧ markedLine l := by
  unfold wrapStep at h
  split at h
  · split at h
    · split at h
      · cases h
      · rename_i lw hlw
        split at h
        · cases h
        · rename_i lastF htrunc
          cases h
          refine ⟨rfl, hall, ?_, ?_⟩
          · rcases truncLoop_cert dims mw init last.length _ _ htrunc with hc | hc
            · exact Or.inr (Or.inr hc)
            · exact Or.inr (Or.inl hc)
          · exact truncLoop_marked dims mw init last.length _ _
              ⟨last.dropLast, lw, rfl⟩ htrunc
    · cases h
  · cases h

theorem wrapStep_ne_err {dims : String → Nat × Nat} {mw mh : Nat}
    {init : List (List String)} {last : List String} {word : String}
    (hne : last ≠ []) : wrapStep dims mw mh init last word ≠ WrapOut.err := by
  unfold wrapStep
  split
  · split
    · split
      · rename_i hnone
        exact absurd (List.getLast?_eq_none_iff.mp hnone) hne
      · rename_i lw hlw
        split
        · rename_i htrunc
          have h1 : last.dropLast ++ [lw ++ "..."] ≠ [] := by simp
          have h2 : (last.dropLast ++ [lw ++ "..."]).length ≤ last.length := by
            have := List.length_dropLast last
            have hpos : 0 < last.length := List.length_pos.mpr hne
            simp only [List.length_append, List.length_cons, List.length_nil]
            omega
          exact absurd htrunc (truncLoop_ne_none dims mw init last.length _ h1 h2)
        · simp
    · simp
  · simp

/-! Facts about the word loop. -/

theorem wrapLoop_cert (dims : String → Nat × Nat) (mw mh : Nat) :
    ∀ (ws : List String) (init : List (List String)) (last : List String),
      certAll dims mw init → certLine dims mw init last →
      ∀ (L : List (List String)) (tr : Bool),
        wrapLoop dims mw mh ws init last = some (L, tr) →
        certAll dims mw L ∧ (tr = true → ∃ L' l, L = L' ++ [l] ∧ markedLine l) := by
  intro ws
  induction ws with
  | nil =>
    intro init last hall hlast L tr h
    simp only [wrapLoop, Option.some.injEq, Prod.mk.injEq] at h
    obtain ⟨hL, htr⟩ := h
    subst hL
    exact ⟨certAll_concat hall hlast, fun hf => absurd (htr.trans hf) (by decide)⟩
  | cons w ws ih =>
    intro init last hall hlast L tr h
    rw [wrapLoop] at h
    cases hstep : wrapStep dims mw mh init last w with
    | cont i l =>
      rw [hstep] at h
      obtain ⟨h1, h2⟩ := wrapStep_cont_cert hstep hall hlast
      exact ih i l h1 h2 L tr h
    | stop i l =>
      rw [hstep] at h
      simp only [Option.some.injEq, Prod.mk.injEq] at h
      obtain ⟨hL, htr⟩ := h
      subst hL
      obtain ⟨heq, h1, h2, h3⟩ := wrapStep_stop_cert hstep hall
      exact ⟨certAll_concat h1 h2, fun _ => ⟨i, l, rfl, h3⟩⟩
    | err =>
      rw [hstep] at h
      cases h

theorem wrapLoop_ne_none (dims : String → Nat × Nat) (mw mh : Nat) :
    ∀ (ws : List String) (init : List (List String)) (last : List String),
      last ≠ [] → wrapLoop dims mw mh ws init last ≠ none := by
  intro ws
  induction ws with
  | nil =>
    intro init last _
    simp [wrapLoop]
  | cons w ws ih =>
    intro init last hne
    rw [wrapLoop]
    cases hstep : wrapStep dims mw mh init last w with
    | cont i l => exact ih i l (wrapStep_cont_ne_nil hstep)
    | stop i l => simp
    | err => exact absurd hstep (wrapStep_ne_err hne)

/-- The first iteration, starting from `lines = [[]]`, in closed form: both
measurements are of the first word alone. -/
theorem wrapStep_first (dims : String → Nat × Nat) (mw mh : Nat) (w : String) :
    wrapStep dims mw mh [] [] w =
      if (dims w).1 > mw then
        if (dims w).2 > mh then WrapOut.err else WrapOut.cont [[]] [w]
      else WrapOut.cont [] [w] := rfl

/-- While every measured prefix fits the width, the loop keeps one line. -/
theorem wrapLoop_all_fit (dims : String → Nat × Nat) (mw mh : Nat) :
    ∀ (ws acc : List String),
      (∀ n, n < ws.length → (dims (joinWords (acc ++ ws.take (n + 1)))).1 ≤ mw) →
      wrapLoop dims mw mh ws [] acc = some ([acc ++ ws], false) := by
  intro ws
  induction ws with
  | nil =>
    intro acc H
    rw [wrapLoop, List.append_nil]
    rfl
  | cons w ws ih =>
    intro acc H
    rw [wrapLoop]
    have h0 : (dims (joinWords (acc ++ [w]))).1 ≤ mw := by
      have := H 0 (by simp)
      simpa [List.take_succ_cons] using this
    have hfit : ¬ ((dims (composed ([] ++ [acc ++ [w]]))).1 > mw) := by
      rw [List.nil_append, composed_singleton (acc ++ [w]) (by simp)]
      exact Nat.not_lt.mpr h0
    have hstep : wrapStep dims mw mh [] acc w = WrapOut.cont [] (acc ++ [w]) := by
      unfold wrapStep
      rw [if_neg hfit]
    rw [hstep]
    have H' : ∀ n, n < ws.length →
        (dims (joinWords ((acc ++ [w]) ++ ws.take (n + 1)))).1 ≤ mw := by
      intro n hn
      have := H (n + 1) (by simpa using Nat.succ_lt_succ hn)
      rw [List.take_succ_cons, List.append_cons] at this
      exact this
    show wrapLoop dims mw mh ws [] (acc ++ [w]) = _
    rw [ih (acc ++ [w]) H', ← List.append_cons]

/-! ## Theorems: text wrapping (C1, C2, C3) -/

/-- The adversarial measurement of the C1 counterexample: width is the
character count; height is huge exactly on the full input text. -/
def dimsC1 (s : String) : Nat × Nat :=
  (s.length, if s = "Wxxxxxx a" then 100 else 0)

/-- C1 (counterexample) — the claim as stated fails: under this measurement
the input text measures over both bounds (width 9 > 5, height 100 > 3), yet
the height check never fires during wrapping, so the output neither ends
with `'...'` nor keeps every line within the max width (the single-word line
`"Wxxxxxx"` measures 7 > 5). -/
theorem text_wrap_truncation_claim_counterexample :
    5 < (dimsC1 "Wxxxxxx a").1 ∧ 3 < (dimsC1 "Wxxxxxx a").2 ∧
    text_wrap "Wxxxxxx a" dimsC1 5 3 = some "\nWxxxxxx\na" ∧
    (¬ ∃ p : String, "\nWxxxxxx\na" = p ++ "...") ∧
    "Wxxxxxx" ∈ strLines "\nWxxxxxx\na" ∧ 5 < (dimsC1 "Wxxxxxx").1 := by
  refine ⟨by decide, by decide, by decide, ?_, by decide, by decide⟩
  rw [ends_with_iff_suffix]
  decide

/-- C1 (amended) — for a measurement whose width dominates the width of each
line of a multi-line string, every line of the final wrap is the untouched
initial empty line, or holds a single word (which may overflow, as the
source accepts silently), or measures within the max width; and whenever the
height-capacity branch was taken (rather than: whenever the raw input text
measures over both bounds), the returned string ends with the truncation
marker `'...'`. -/
theorem text_wrap_height_truncation (dims : String → Nat × Nat) (mw mh : Nat) (text : String)
    (Hline : ∀ (ls : List String) (l : String), l ∈ ls →
      (dims l).1 ≤ (dims (joinSep "\n" ls)).1) :
    ∀ (L : List (List String)) (tr : Bool),
      text_wrap_run text dims mw mh = some (L, tr) →
      text_wrap text dims mw mh = some (rendered L) ∧
      (∀ l ∈ L, l = [] ∨ l.length = 1 ∨ (dims (joinWords l)).1 ≤ mw) ∧
      (tr = true → ∃ p : String, rendered L = p ++ "...") := by
  intro L tr hrun
  obtain ⟨hcert, hmark⟩ := wrapLoop_cert dims mw mh (pySplit text) [] []
    (certAll_nil dims mw) (Or.inl rfl) L tr hrun
  refine ⟨?_, ?_, ?_⟩
  · rw [text_wrap, hrun]
    rfl
  · intro l hl
    obtain ⟨⟨i, hi⟩, hget⟩ := List.mem_iff_get.mp hl
    have hc := hcert i hi
    rw [hget] at hc
    rcases hc with hc | hc | hc
    · exact Or.inl hc
    · exact Or.inr (Or.inl hc)
    · by_cases hnil : l = []
      · exact Or.inl hnil
      · refine Or.inr (Or.inr ?_)
        have hmem : joinWords l ∈
            ((L.take i ++ [l]).filter (fun x => !x.isEmpty)).map joinWords := by
          apply List.mem_map_of_mem
          apply List.mem_filter.mpr
          refine ⟨List.mem_append.mpr (Or.inr (List.mem_singleton.mpr rfl)), ?_⟩
          simp [hnil]
        have hle := Hline _ _ hmem
        simp only [composed] at hc
        exact Nat.le_trans hle hc
  · intro htr
    obtain ⟨L', l, hLdec, l', r, hldec⟩ := hmark htr
    obtain ⟨q, hq⟩ := joinSep_concat "\n" (L'.map joinWords) (joinWords l)
    obtain ⟨q2, hq2⟩ := joinSep_concat " " l' (r ++ "...")
    refine ⟨q ++ (q2 ++ r), ?_⟩
    have hjl : joinWords l = q2 ++ (r ++ "...") := by
      rw [hldec]
      exact hq2
    rw [rendered, hLdec, List.map_append]
    show joinSep "\n" (L'.map joinWords ++ [joinWords l]) = _
    rw [hq, hjl]
    simp only [String.append_assoc]

/-- The measurement function of the C1 witness: width is the character
count, height is the number of lines. -/
def dimsWitness (s : String) : Nat × Nat :=
  (s.length, s.data.count '\n' + 1)

/-- Witness for C1 (amended): wrapping `"aa bb cc"` into a 5-wide, 1-high
box truncates to the single line `"aa..."`, which carries the marker. -/
theorem text_wrap_height_truncation_witness :
    text_wrap "aa bb cc" dimsWitness 5 1 = some (rendered [["aa..."]]) ∧
    (∀ l ∈ [["aa..."]], l = [] ∨ l.length = 1 ∨ (dimsWitness (joinWords l)).1 ≤ 5) ∧
    (true = true → ∃ p : String, rendered [["aa..."]] = p ++ "...") :=
  text_wrap_height_truncation dimsWitness 5 1 "aa bb cc"
    (fun ls l h => length_le_joinSep "\n" ls l h) [["aa..."]] true rfl

/-- The adversarial measurement of the C2 counterexample: everything
measures 0 except the single word `"a"`. -/
def dimsC2 (s : String) : Nat × Nat :=
  (if s = "a" then 100 else 0, 0)

/-- C2 (counterexample) — the claim as stated fails: the input `"a  b"`
measures width 0 < 10, yet the output is not the input: the run of spaces is
collapsed and a line break is inserted (the word `"a"` measured over the
width when it was placed). -/
theorem text_wrap_no_wrap_claim_counterexample :
    (dimsC2 "a  b").1 < 10 ∧
    text_wrap "a  b" dimsC2 10 99 = some "\na b" ∧
    ("\na b" : String) ≠ "a  b" := by
  refine ⟨by decide, by decide, by decide⟩

/-- C2 (amended) — when every measured prefix of the word sequence fits
within the max width (for a monotone width measure this follows from the
whole text fitting), the wrap inserts no line break: it returns the words
joined by single spaces; in particular, input that is already
single-space-separated is returned unchanged. -/
theorem text_wrap_fits_no_break (text : String) (dims : String → Nat × Nat) (mw mh : Nat)
    (H : ∀ n, n < (pySplit text).length →
      (dims (joinWords ((pySplit text).take (n + 1)))).1 ≤ mw) :
    text_wrap text dims mw mh = some (joinWords (pySplit text)) ∧
    (text = joinWords (pySplit text) → text_wrap text dims mw mh = some text) := by
  have hrun : wrapLoop dims mw mh (pySplit text) [] [] = some ([pySplit text], false) := by
    have := wrapLoop_all_fit dims mw mh (pySplit text) [] (by simpa using H)
    simpa using this
  constructor
  · rw [text_wrap, text_wrap_run, hrun]
    rcases hsplit : pySplit text with _ | ⟨w, ws⟩
    · rfl
    · rfl
  · intro heq
    rw [text_wrap, text_wrap_run, hrun]
    simp only [Option.map_some']
    rw [show rendered [pySplit text] = joinWords (pySplit text) from rfl, ← heq]

/-- Witness for C2 (amended): a two-word text whose prefixes both fit. -/
theorem text_wrap_fits_no_break_witness :
    text_wrap "hello world" (fun s => (s.length, 0)) 20 5 = some "hello world" :=
  (text_wrap_fits_no_break "hello world" (fun s => (s.length, 0)) 20 5 (by decide)).2 (by decide)

/-- C3 (counterexample) — the claim as stated fails: when the very first
word measures over both the max width and the max height, the source reaches
`lines[-1][-1]` with `lines = [[]]` and raises `IndexError` (the embedding's
out-of-bounds branch, `none`). -/
theorem text_wrap_totality_claim_counterexample :
    text_wrap "Wxxxxxx" (fun s => (s.length, s.length)) 3 3 = none := by
  decide

/-- C3 (amended) — `text_wrap` returns the empty string on empty (or
all-whitespace) input, and it returns a string for every input *except* the
single crashing family: it hits the out-of-bounds branch exactly when the
first word of the text measures over the max width and over the max height
(then the code pops the just-started line and indexes `[-1]` into the empty
initial line). -/
theorem text_wrap_totality_characterization (text : String) (dims : String → Nat × Nat)
    (mw mh : Nat) :
    (pySplit text = [] → text_wrap text dims mw mh = some "") ∧
    (text_wrap text dims mw mh = none ↔
      ∃ w1 ws, pySplit text = w1 :: ws ∧ mw < (dims w1).1 ∧ mh < (dims w1).2) := by
  constructor
  · intro h
    rw [text_wrap, text_wrap_run, h]
    rfl
  · rw [text_wrap, Option.map_eq_none']
    constructor
    · intro hnone
      rcases hsplit : pySplit text with _ | ⟨w1, ws⟩
      · rw [text_wrap_run, hsplit] at hnone
        simp [wrapLoop] at hnone
      · refine ⟨w1, ws, rfl, ?_⟩
        rw [text_wrap_run, hsplit, wrapLoop, wrapStep_first] at hnone
        by_cases c1 : (dims w1).1 > mw
        · by_cases c2 : (dims w1).2 > mh
          · exact ⟨c1, c2⟩
          · rw [if_pos c1, if_neg c2] at hnone
            exact absurd hnone (wrapLoop_ne_none dims mw mh ws [[]] [w1] (by simp))
        · rw [if_neg c1] at hnone
          exact absurd hnone (wrapLoop_ne_none dims mw mh ws [] [w1] (by simp))
    · rintro ⟨w1, ws, hsplit, c1, c2⟩
      rw [text_wrap_run, hsplit, wrapLoop, wrapStep_first, if_pos c1, if_pos c2]

/-- Witness for C3 (amended): whitespace-only input yields the empty string;
a first word over both bounds yields the crash. -/
theorem text_wrap_totality_characterization_witness :
    text_wrap "  " (fun _ => (0, 0)) 1 1 = some "" ∧
    text_wrap "abcd efgh" (fun s => (s.length, s.length)) 1 1 = none :=
  ⟨(text_wrap_totality_characterization "  " (fun _ => (0, 0)) 1 1).1 (by decide),
    (text_wrap_totality_characterization "abcd efgh" (fun s => (s.length, s.length)) 1 1).2.mpr
      ⟨"abcd", ["efgh"], by decide, by decide, by decide⟩⟩

